import Mathlib

/-!
# Si7013 humidity / temperature driver

A shallow embedding of `SI7013.cpp` and theorems about it.

* Machine integers are natural numbers; a conversion to `byte` / `uint8_t` is `% 256`,
  a conversion to `uint16_t` is `% 65536`.  The 32-bit working register of `check_crc`
  never exceeds 24 bits, so no reduction is needed there.
* `float` results are modelled by exact rationals (rounding is abstracted away).
* The two-wire bus (`Wire`) is an external library: its answers are parameters of the
  model, and every call made on it is recorded in a log.
-/

namespace SI7013

/-! ## Constants of `SI7013.h` -/

/-- The header defines the address twice (0x40, then 0x41); the later definition is in force. -/
def SI7013_ADDRESS : Nat := 0x41
def MEASURE_RH_NOHOLD : Nat := 0xF5
def MEASURE_TEMP_NOHOLD : Nat := 0xF3
def WRITE_USER_REG1 : Nat := 0xE6
def READ_USER_REG1 : Nat := 0xE7

/-- The 0x0131 polynomial shifted to the far left of three bytes. -/
def SHIFTED_DIVISOR : Nat := 0x988000

/-! ## `check_crc` -/

/-- One pass of the body of the `for` loop of `check_crc`, at loop index `i`,
on the pair `(remainder, divsor)`. -/
def crcStep (s : Nat × Nat) (i : Nat) : Nat × Nat :=
  let remainder := s.1
  let divsor := s.2
  let remainder := if remainder &&& (1 <<< (23 - i)) ≠ 0 then remainder ^^^ divsor else remainder
  let divsor := divsor >>> 1
  (remainder, divsor)

/-- The loop `for (int i = 0 ; i < 16 ; i++)` of `check_crc`, from a given state. -/
def crcLoop (remainder divsor : Nat) : Nat × Nat :=
  (List.range 16).foldl crcStep (remainder, divsor)

/-- `byte SI7013::check_crc(uint16_t message_from_sensor, uint8_t check_value_from_sensor)`. -/
def check_crc (message_from_sensor check_value_from_sensor : Nat) : Nat :=
  let message_from_sensor := message_from_sensor % 65536
  let check_value_from_sensor := check_value_from_sensor % 256
  let remainder := message_from_sensor <<< 8
  let remainder := remainder ||| check_value_from_sensor
  let divsor := SHIFTED_DIVISOR
  let remainder := (crcLoop remainder divsor).1
  remainder % 256

/-! ## The two-wire bus

`Wire` and `delay` belong to the Arduino core, not to this driver.  The model records every call
in a log and takes the answers of `Wire.available()` and `Wire.read()` from two streams. -/

/-- A call made on the bus library, or a `delay`. -/
inductive BusOp where
  | beginTransmission (address : Nat)
  | write (data : Nat)
  | endTransmission
  | requestFrom (address quantity : Nat)
  | available
  | read
  | delay (ms : Nat)
  deriving DecidableEq, Repr

/-- The bus as the driver sees it: the answers the coming calls of `Wire.available()` and
`Wire.read()` will get, and the calls made so far. -/
structure Bus where
  availableAt : Nat → Int
  readAt : Nat → Nat
  log : List BusOp

namespace Bus

def beginTransmission (w : Bus) (address : Nat) : Bus :=
  { w with log := w.log ++ [BusOp.beginTransmission address] }

def write (w : Bus) (data : Nat) : Bus :=
  { w with log := w.log ++ [BusOp.write data] }

def endTransmission (w : Bus) : Bus :=
  { w with log := w.log ++ [BusOp.endTransmission] }

def requestFrom (w : Bus) (address quantity : Nat) : Bus :=
  { w with log := w.log ++ [BusOp.requestFrom address quantity] }

/-- The call `Wire.available()`: the next answer of the stream is consumed. -/
def available (w : Bus) : Int × Bus :=
  (w.availableAt 0,
    { w with availableAt := fun k => w.availableAt (k + 1), log := w.log ++ [BusOp.available] })

/-- The call `Wire.read()` stored into a `byte`: the next answer of the stream, narrowed. -/
def read (w : Bus) : Nat × Bus :=
  (w.readAt 0 % 256,
    { w with readAt := fun k => w.readAt (k + 1), log := w.log ++ [BusOp.read] })

def delay (w : Bus) (ms : Nat) : Bus :=
  { w with log := w.log ++ [BusOp.delay ms] }

end Bus

/-! ## The measurement operations -/

/-- The loop `while(Wire.available() < 3) { counter++; delay(1); if(counter > 100) return 998; }`
entered with the given `counter`.  The flag is `true` when the loop is left because three bytes
are available, `false` when the function returns from inside the loop. -/
def waitLoop (counter : Nat) (w : Bus) : Bool × Bus :=
  let r := w.available
  if r.1 < 3 then
    let counter := counter + 1
    let w := r.2.delay 1
    if counter > 100 then (false, w) else waitLoop counter w
  else (true, r.2)
termination_by 101 - counter
decreasing_by omega

/-- `float SI7013::readHumidity(void)`. -/
def readHumidity (w : Bus) : ℚ × Bus :=
  let w := w.beginTransmission SI7013_ADDRESS
  let w := w.write MEASURE_RH_NOHOLD
  let w := w.endTransmission
  let w := w.delay 55
  let w := w.requestFrom SI7013_ADDRESS 3
  let r := waitLoop 0 w
  if r.1 = false then (998, r.2) else
  let r1 := r.2.read
  let msb := r1.1
  let r2 := r1.2.read
  let lsb := r2.1
  let r3 := r2.2.read
  let checksum := r3.1
  let w := r3.2
  let rawHumidity := (msb <<< 8) ||| lsb
  if check_crc rawHumidity checksum ≠ 0 then (999, w) else
  let rawHumidity := rawHumidity &&& 0xFFFC
  let tempRH : ℚ := (rawHumidity : ℚ) / 65536
  let rh : ℚ := -6 + (125 * tempRH)
  (rh, w)

/-- `float SI7013::readTemperature(void)`. -/
def readTemperature (w : Bus) : ℚ × Bus :=
  let w := w.beginTransmission SI7013_ADDRESS
  let w := w.write MEASURE_TEMP_NOHOLD
  let w := w.endTransmission
  let w := w.delay 55
  let w := w.requestFrom SI7013_ADDRESS 3
  let r := waitLoop 0 w
  if r.1 = false then (998, r.2) else
  let r1 := r.2.read
  let msb := r1.1
  let r2 := r1.2.read
  let lsb := r2.1
  let r3 := r2.2.read
  let checksum := r3.1
  let w := r3.2
  let rawTemperature := (msb <<< 8) ||| lsb
  if check_crc rawTemperature checksum ≠ 0 then (999, w) else
  let rawTemperature := rawTemperature &&& 0xFFFC
  let tempTemperature : ℚ := (rawTemperature : ℚ) / 65536
  let realTemperature : ℚ := -46.85 + (175.72 * tempTemperature)
  (realTemperature, w)

/-- `byte SI7013::read_user_register(void)`. -/
def read_user_register (w : Bus) : Nat × Bus :=
  let w := w.beginTransmission SI7013_ADDRESS
  let w := w.write READ_USER_REG1
  let w := w.endTransmission
  let w := w.requestFrom SI7013_ADDRESS 1
  let r := w.read
  let userRegister := r.1
  (userRegister, r.2)

/-- `void SI7013::setResolution(byte resolution)`. -/
def setResolution (resolution : Nat) (w : Bus) : Bus :=
  let resolution := resolution % 256
  let r := read_user_register w
  let userRegister := r.1
  let w := r.2
  let userRegister := userRegister &&& 0b01111110
  let resolution := resolution &&& 0b10000001
  let userRegister := userRegister ||| resolution
  let w := w.beginTransmission SI7013_ADDRESS
  let w := w.write WRITE_USER_REG1
  let w := w.write userRegister
  let w := w.endTransmission
  w

/-! ## Auxiliary definitions used in the statements -/

/-- The log of `n` unsuccessful polls: each `Wire.available()` is followed by `delay(1)`. -/
def pollsLog : Nat → List BusOp
  | 0 => []
  | n + 1 => BusOp.available :: BusOp.delay 1 :: pollsLog n

/-- The calls that open a measurement with the given command, up to `Wire.requestFrom`. -/
def requestLog (command : Nat) : List BusOp :=
  [BusOp.beginTransmission SI7013_ADDRESS, BusOp.write command, BusOp.endTransmission,
    BusOp.delay 55, BusOp.requestFrom SI7013_ADDRESS 3]

/-- Three bytes are reported available at one of the polls the wait loop makes before it
gives up. -/
def ArrivesInTime (w : Bus) : Prop := ∃ k, k ≤ 100 ∧ 3 ≤ w.availableAt k

/-- A bus on which nothing ever arrives. -/
def silentBus : Bus := { availableAt := fun _ => 0, readAt := fun _ => 0, log := [] }

/-- A bus that has the three given bytes ready at the first poll. -/
def readyBus (msb lsb checksum : Nat) : Bus :=
  { availableAt := fun _ => 3,
    readAt := fun k => if k = 0 then msb else if k = 1 then lsb else checksum,
    log := [] }

/-- The state of the loop of `check_crc` after its first `n` passes. -/
def crcIter (n remainder divsor : Nat) : Nat × Nat :=
  (List.range n).foldl crcStep (remainder, divsor)

/-! ## Reference definitions: polynomials over GF(2) and the textbook CRC-8

A polynomial over GF(2) is coded by the number whose bit `k` is the coefficient of `x^k`;
addition of polynomials is XOR. -/

/-- The product of the polynomial `b` with the part of `a` below degree `n`: bit `k` of `a`
contributes `b` times `x^k`, and contributions are added without carries. -/
def gf2mulAux (a b : Nat) : Nat → Nat
  | 0 => 0
  | n + 1 => (if a.testBit n = true then b <<< n else 0) ^^^ gf2mulAux a b n

/-- The product of two polynomials over GF(2) (carry-less multiplication). -/
def gf2mul (a b : Nat) : Nat := gf2mulAux a b (a.log2 + 1)

/-- The number `r` codes the remainder of the polynomial `p` divided by `g`: its degree is below
that of `g`, and `p = q * g + r` for some quotient `q`. -/
def IsGF2Remainder (p g r : Nat) : Prop :=
  r < 2 ^ g.log2 ∧ ∃ q, gf2mul q g ^^^ r = p

/-- One bit of the byte-wise CRC-8 (MSB first, not reflected, polynomial 0x31): shift left, and
subtract the polynomial when a one falls out. -/
def crc8Bit (crc : Nat) : Nat :=
  if crc &&& 0x80 ≠ 0 then ((crc <<< 1) ^^^ 0x31) % 256 else (crc <<< 1) % 256

/-- Feeding one byte into the CRC-8. -/
def crc8Byte (crc byte : Nat) : Nat := crc8Bit^[8] (crc ^^^ byte)

/-- The CRC-8 of a list of bytes, from the initial value 0. -/
def crc8 (bytes : List Nat) : Nat := bytes.foldl crc8Byte 0

/-- The byte-wise CRC-8 of the two bytes of a 16-bit message. -/
def crc8Message (m : Nat) : Nat := crc8 [m >>> 8, m &&& 0xFF]

/-! ## Bit-level facts -/

theorem and_one_shiftLeft_ne_zero (r k : Nat) : r &&& (1 <<< k) ≠ 0 ↔ r.testBit k = true := by
  rw [Nat.one_shiftLeft]
  constructor
  · intro h
    by_contra hb
    apply h
    apply Nat.eq_of_testBit_eq
    intro i
    simp only [Nat.testBit_and, Nat.testBit_two_pow, Nat.zero_testBit]
    by_cases hik : k = i
    · subst hik; simp [hb]
    · simp [hik]
  · intro hb h
    have := congrArg (fun x => x.testBit k) h
    simp [hb] at this

theorem xor_mod_two_pow (a b n : Nat) : (a ^^^ b) % 2 ^ n = (a % 2 ^ n) ^^^ (b % 2 ^ n) := by
  apply Nat.eq_of_testBit_eq
  intro i
  simp only [Nat.testBit_mod_two_pow, Nat.testBit_xor]
  by_cases h : i < n <;> simp [h]

theorem shiftLeft_xor (a b n : Nat) : (a ^^^ b) <<< n = (a <<< n) ^^^ (b <<< n) := by
  apply Nat.eq_of_testBit_eq
  intro i
  simp only [Nat.testBit_shiftLeft, Nat.testBit_xor]
  by_cases h : i ≥ n <;> simp [h]

theorem shiftRight_xor (a b n : Nat) : (a ^^^ b) >>> n = (a >>> n) ^^^ (b >>> n) := by
  apply Nat.eq_of_testBit_eq
  intro i
  simp only [Nat.testBit_shiftRight, Nat.testBit_xor]

theorem lt_two_pow_of_testBit_false {x k : Nat} (hx : x < 2 ^ (k + 1))
    (hb : x.testBit k = false) : x < 2 ^ k := by
  apply Nat.lt_pow_two_of_testBit
  intro i hi
  rcases Nat.eq_or_lt_of_le hi with h | h
  · subst h; exact hb
  · apply Nat.testBit_lt_two_pow
    exact lt_of_lt_of_le hx (Nat.pow_le_pow_right (by decide) h)

/-- The padded register: the check byte occupies bits the shifted message leaves clear. -/
theorem shiftLeft_or_eq_xor (m c : Nat) (hc : c < 256) : (m <<< 8) ||| c = (m <<< 8) ^^^ c := by
  apply Nat.eq_of_testBit_eq
  intro i
  simp only [Nat.testBit_or, Nat.testBit_xor, Nat.testBit_shiftLeft]
  by_cases h : i ≥ 8
  · have : c.testBit i = false := by
      apply Nat.testBit_lt_two_pow
      exact lt_of_lt_of_le (show c < 2 ^ 8 from hc) (Nat.pow_le_pow_right (by decide) h)
    simp [this]
  · simp [h]

/-! ## The loop of `check_crc` -/

theorem crcLoop_eq (r d : Nat) : crcLoop r d = crcIter 16 r d := rfl

theorem crcIter_zero (r d : Nat) : crcIter 0 r d = (r, d) := rfl

theorem crcIter_succ (n r d : Nat) : crcIter (n + 1) r d = crcStep (crcIter n r d) n := by
  simp [crcIter, List.range_succ, List.foldl_append]

theorem crcStep_fst (s : Nat × Nat) (i : Nat) :
    (crcStep s i).1 = if s.1.testBit (23 - i) = true then s.1 ^^^ s.2 else s.1 := by
  simp only [crcStep]
  by_cases h : s.1.testBit (23 - i) = true
  · rw [if_pos ((and_one_shiftLeft_ne_zero _ _).2 h), if_pos h]
  · rw [if_neg (fun h2 => h ((and_one_shiftLeft_ne_zero _ _).1 h2)), if_neg h]

theorem crcStep_snd (s : Nat × Nat) (i : Nat) : (crcStep s i).2 = s.2 >>> 1 := rfl

theorem crcIter_snd (n r d : Nat) : (crcIter n r d).2 = d >>> n := by
  induction n with
  | zero => rfl
  | succ n ih => rw [crcIter_succ, crcStep_snd, ih, ← Nat.shiftRight_add]

/-- Conditionally adding `d`, on a condition that is itself additive, is additive. -/
theorem xor_cond_xor (p q : Bool) (x y d : Nat) :
    (if (p ^^ q) = true then (x ^^^ y) ^^^ d else x ^^^ y)
      = (if p = true then x ^^^ d else x) ^^^ (if q = true then y ^^^ d else y) := by
  apply Nat.eq_of_testBit_eq
  intro i
  cases p <;> cases q <;> simp only [Bool.xor_false, Bool.xor_true, Bool.not_false,
    Bool.not_true, if_true, if_false, Nat.testBit_xor, Bool.false_eq_true] <;>
    cases x.testBit i <;> cases y.testBit i <;> cases d.testBit i <;> rfl

/-- Every pass of the loop is additive over XOR in the remainder. -/
theorem crcIter_xor (n a b d : Nat) :
    (crcIter n (a ^^^ b) d).1 = (crcIter n a d).1 ^^^ (crcIter n b d).1 := by
  induction n with
  | zero => rfl
  | succ n ih =>
    simp only [crcIter_succ, crcStep_fst, crcIter_snd, ih, Nat.testBit_xor]
    exact xor_cond_xor _ _ _ _ _

/-- A value that fits in the low byte is left alone by the sixteen passes. -/
theorem crcIter_small (n c d : Nat) (hn : n ≤ 16) (hc : c < 256) : (crcIter n c d).1 = c := by
  induction n with
  | zero => rfl
  | succ n ih =>
    rw [crcIter_succ, crcStep_fst, ih (by omega)]
    have : c.testBit (23 - n) = false := by
      apply Nat.testBit_lt_two_pow
      exact lt_of_lt_of_le (show c < 2 ^ 8 from hc)
        (Nat.pow_le_pow_right (by decide) (by omega : 8 ≤ 23 - n))
    simp [this]

/-- The 24-bit register `check_crc` starts from, written with XOR. -/
theorem check_crc_eq (m c : Nat) :
    check_crc m c
      = (crcIter 16 (((m % 65536) <<< 8) ^^^ (c % 256)) SHIFTED_DIVISOR).1 % 256 := by
  simp only [check_crc, crcLoop_eq]
  rw [shiftLeft_or_eq_xor _ _ (Nat.mod_lt _ (by decide))]

theorem xor_xor_xor_comm (a b c d : Nat) : (a ^^^ b) ^^^ (c ^^^ d) = (a ^^^ c) ^^^ (b ^^^ d) := by
  apply Nat.eq_of_testBit_eq
  intro i
  simp only [Nat.testBit_xor]
  cases a.testBit i <;> cases b.testBit i <;> cases c.testBit i <;> cases d.testBit i <;> rfl

/-- The routine is additive over XOR, for all arguments. -/
theorem check_crc_xor (m1 m2 c1 c2 : Nat) :
    check_crc (m1 ^^^ m2) (c1 ^^^ c2) = check_crc m1 c1 ^^^ check_crc m2 c2 := by
  have e16 : (m1 ^^^ m2) % 65536 = (m1 % 65536) ^^^ (m2 % 65536) := xor_mod_two_pow m1 m2 16
  have e8 : (c1 ^^^ c2) % 256 = (c1 % 256) ^^^ (c2 % 256) := xor_mod_two_pow c1 c2 8
  simp only [check_crc_eq]
  rw [e16, e8, shiftLeft_xor, xor_xor_xor_comm, crcIter_xor]
  exact xor_mod_two_pow _ _ 8

/-- With a zero message the check byte comes back unchanged. -/
theorem check_crc_zero_left (c : Nat) (hc : c < 256) : check_crc 0 c = c := by
  rw [check_crc_eq]
  simp only [Nat.zero_mod, Nat.zero_shiftLeft, Nat.zero_xor, Nat.mod_eq_of_lt hc]
  rw [crcIter_small 16 c _ (Nat.le_refl _) hc, Nat.mod_eq_of_lt hc]

theorem check_crc_lt (m c : Nat) : check_crc m c < 256 := by
  simp only [check_crc]
  exact Nat.mod_lt _ (by decide)

/-- The check byte enters the result by a plain XOR. -/
theorem check_crc_split (m c : Nat) (hc : c < 256) : check_crc m c = check_crc m 0 ^^^ c := by
  have h := check_crc_xor m 0 0 c
  rw [Nat.xor_zero, Nat.zero_xor, check_crc_zero_left c hc] at h
  exact h

/-! ## Polynomials over GF(2) -/

theorem gf2mulAux_xor (a a' b n : Nat) :
    gf2mulAux (a ^^^ a') b n = gf2mulAux a b n ^^^ gf2mulAux a' b n := by
  induction n with
  | zero => simp [gf2mulAux]
  | succ n ih =>
    simp only [gf2mulAux, ih, Nat.testBit_xor]
    rw [xor_xor_xor_comm]
    congr 1
    cases a.testBit n <;> cases a'.testBit n <;> simp

theorem gf2mulAux_stable (a b n k : Nat) (ha : a < 2 ^ n) (hk : n ≤ k) :
    gf2mulAux a b k = gf2mulAux a b n := by
  induction k with
  | zero =>
    have : n = 0 := by omega
    subst this; rfl
  | succ k ih =>
    rcases Nat.eq_or_lt_of_le hk with h | h
    · subst h; rfl
    · have hb : a.testBit k = false := by
        apply Nat.testBit_lt_two_pow
        exact lt_of_lt_of_le ha (Nat.pow_le_pow_right (by decide) (by omega))
      simp only [gf2mulAux, hb, Bool.false_eq_true, if_false, Nat.zero_xor]
      exact ih (by omega)

theorem gf2mul_eq_aux (a b n : Nat) (ha : a < 2 ^ n) : gf2mul a b = gf2mulAux a b n := by
  unfold gf2mul
  rcases Nat.le_total (a.log2 + 1) n with h | h
  · exact (gf2mulAux_stable a b _ n Nat.lt_log2_self h).symm
  · exact gf2mulAux_stable a b n _ ha h

theorem gf2mul_xor (a a' b : Nat) : gf2mul (a ^^^ a') b = gf2mul a b ^^^ gf2mul a' b := by
  have h1 : a < 2 ^ (max (a.log2 + 1) (a'.log2 + 1)) :=
    lt_of_lt_of_le Nat.lt_log2_self (Nat.pow_le_pow_right (by decide) (le_max_left _ _))
  have h2 : a' < 2 ^ (max (a.log2 + 1) (a'.log2 + 1)) :=
    lt_of_lt_of_le Nat.lt_log2_self (Nat.pow_le_pow_right (by decide) (le_max_right _ _))
  rw [gf2mul_eq_aux _ b _ (Nat.xor_lt_two_pow h1 h2), gf2mul_eq_aux a b _ h1,
    gf2mul_eq_aux a' b _ h2, gf2mulAux_xor]

theorem gf2mulAux_eq_zero (a b n : Nat) (h : ∀ i, i < n → a.testBit i = false) :
    gf2mulAux a b n = 0 := by
  induction n with
  | zero => rfl
  | succ n ih =>
    simp only [gf2mulAux, h n (Nat.lt_succ_self n), Bool.false_eq_true, if_false, Nat.zero_xor]
    exact ih (fun i hi => h i (Nat.lt_succ_of_lt hi))

/-- Multiplying by the monomial `x^k` is a shift by `k`. -/
theorem gf2mul_two_pow (k b : Nat) : gf2mul (2 ^ k) b = b <<< k := by
  rw [gf2mul_eq_aux (2 ^ k) b (k + 1) (Nat.pow_lt_pow_right (by decide) (Nat.lt_succ_self k))]
  simp only [gf2mulAux, Nat.testBit_two_pow_self, if_true]
  rw [gf2mulAux_eq_zero _ _ _ (fun i hi => Nat.testBit_two_pow_of_ne (by omega)), Nat.xor_zero]

theorem gf2mul_zero_left (b : Nat) : gf2mul 0 b = 0 := by
  rw [gf2mul_eq_aux 0 b 0 (by decide)]
  rfl

theorem gf2mulAux_lt (a g n d : Nat) (hg : g < 2 ^ (d + 1)) : gf2mulAux a g n < 2 ^ (n + d) := by
  induction n with
  | zero => exact Nat.pow_pos (by decide)
  | succ n ih =>
    simp only [gf2mulAux]
    apply Nat.xor_lt_two_pow
    · split
      · rw [Nat.shiftLeft_eq, show n + 1 + d = (d + 1) + n by omega, Nat.pow_add]
        exact Nat.mul_lt_mul_of_lt_of_le hg (Nat.le_refl _) (Nat.pow_pos (by decide))
      · exact Nat.pow_pos (by decide)
    · exact lt_of_lt_of_le ih (Nat.pow_le_pow_right (by decide) (by omega))

theorem testBit_log2 (x : Nat) (hx : x ≠ 0) : x.testBit x.log2 = true := by
  by_contra h
  have hlt := lt_two_pow_of_testBit_false (Nat.lt_log2_self (n := x)) (by simpa using h)
  exact absurd (Nat.log2_self_le hx) (Nat.not_le.2 hlt)

/-- A non-zero multiple of a polynomial of degree `d` has degree at least `d`. -/
theorem gf2mul_ge (x g d : Nat) (hx : x ≠ 0) (hg : g < 2 ^ (d + 1)) (hd : g.testBit d = true) :
    2 ^ d ≤ gf2mul x g := by
  have hb : (gf2mul x g).testBit (x.log2 + d) = true := by
    unfold gf2mul
    simp only [gf2mulAux, testBit_log2 x hx, if_true, Nat.testBit_xor, Nat.testBit_shiftLeft]
    rw [Nat.testBit_lt_two_pow (gf2mulAux_lt x g x.log2 d hg)]
    simp [hd]
  exact le_trans (Nat.pow_le_pow_right (by decide) (Nat.le_add_left _ _))
    (Nat.testBit_implies_ge hb)

/-- The remainder of a division by a polynomial of degree `d` is unique. -/
theorem gf2_remainder_unique (g d p q q' r r' : Nat) (hg : g < 2 ^ (d + 1))
    (hd : g.testBit d = true) (hr : r < 2 ^ d) (hr' : r' < 2 ^ d)
    (h : gf2mul q g ^^^ r = p) (h' : gf2mul q' g ^^^ r' = p) : r = r' := by
  have e : gf2mul (q ^^^ q') g = r ^^^ r' := by
    rw [gf2mul_xor]
    have h2 := h.trans h'.symm
    have h3 := congrArg (fun t => (gf2mul q' g ^^^ t) ^^^ r) h2
    simp only at h3
    rw [← Nat.xor_assoc, Nat.xor_comm (gf2mul q' g), Nat.xor_assoc _ r r, Nat.xor_self,
      Nat.xor_zero, ← Nat.xor_assoc, Nat.xor_self, Nat.zero_xor] at h3
    rw [h3, Nat.xor_comm]
  have hq : q ^^^ q' = 0 := by
    by_contra hne
    have := gf2mul_ge _ g d hne hg hd
    rw [e] at this
    exact absurd (Nat.xor_lt_two_pow hr hr') (Nat.not_lt.2 this)
  rw [Nat.xor_eq_zero] at hq
  subst hq
  exact Nat.xor_right_inj.1 (h.trans h'.symm)

/-! ## The loop as a polynomial division -/

/-- The divisor of pass `n` is the polynomial 0x131 times `x^(15 - n)`. -/
theorem divisor_shift (n : Nat) (hn : n < 16) : SHIFTED_DIVISOR >>> n = 0x131 <<< (15 - n) := by
  interval_cases n <;> rfl

theorem divisor_lt (n : Nat) (hn : n < 16) : SHIFTED_DIVISOR >>> n < 2 ^ (24 - n) := by
  interval_cases n <;> decide

theorem divisor_top (n : Nat) (hn : n < 16) : (SHIFTED_DIVISOR >>> n).testBit (23 - n) = true := by
  interval_cases n <;> rfl

/-- After `n` passes the remainder has lost its `n` highest bits. -/
theorem crcIter_lt (n r : Nat) (hn : n ≤ 16) (hr : r < 2 ^ 24) :
    (crcIter n r SHIFTED_DIVISOR).1 < 2 ^ (24 - n) := by
  induction n with
  | zero => exact hr
  | succ n ih =>
    have ih := ih (by omega)
    rw [show 24 - n = (23 - n) + 1 by omega] at ih
    rw [crcIter_succ, crcStep_fst, crcIter_snd, show 24 - (n + 1) = 23 - n by omega]
    split
    · rename_i hb
      apply lt_two_pow_of_testBit_false
      · apply Nat.xor_lt_two_pow ih
        have := divisor_lt n (by omega)
        rwa [show 24 - n = (23 - n) + 1 by omega] at this
      · rw [Nat.testBit_xor, hb, divisor_top n (by omega)]; rfl
    · rename_i hb
      exact lt_two_pow_of_testBit_false ih (by simpa using hb)

/-- What the passes subtract from the register is a multiple of the polynomial 0x131. -/
theorem crcIter_quotient (n r : Nat) (hn : n ≤ 16) :
    ∃ q, gf2mul q 0x131 ^^^ (crcIter n r SHIFTED_DIVISOR).1 = r := by
  induction n with
  | zero => exact ⟨0, by rw [gf2mul_zero_left, Nat.zero_xor]; rfl⟩
  | succ n ih =>
    obtain ⟨q, hq⟩ := ih (by omega)
    rw [crcIter_succ, crcStep_fst, crcIter_snd]
    split
    · refine ⟨q ^^^ 2 ^ (15 - n), ?_⟩
      rw [gf2mul_xor, gf2mul_two_pow, divisor_shift n (by omega), xor_xor_xor_comm,
        Nat.xor_self, Nat.xor_zero]
      exact hq
    · exact ⟨q, hq⟩

theorem register_lt (m c : Nat) : ((m % 65536) <<< 8) ^^^ (c % 256) < 2 ^ 24 := by
  apply Nat.xor_lt_two_pow
  · rw [Nat.shiftLeft_eq]
    have : m % 65536 < 65536 := Nat.mod_lt _ (by decide)
    omega
  · have : c % 256 < 256 := Nat.mod_lt _ (by decide)
    omega

/-- The final narrowing to a byte loses nothing: the loop has already cleared bits 8 to 23. -/
theorem check_crc_eq_loop (m c : Nat) :
    check_crc m c = (crcIter 16 (((m % 65536) <<< 8) ^^^ (c % 256)) SHIFTED_DIVISOR).1 := by
  rw [check_crc_eq]
  exact Nat.mod_eq_of_lt (crcIter_lt 16 _ (Nat.le_refl _) (register_lt m c))

/-! ## The textbook CRC-8 -/

theorem crc8Bit_xor (a b : Nat) : crc8Bit (a ^^^ b) = crc8Bit a ^^^ crc8Bit b := by
  have e (r : Nat) : crc8Bit r
      = if r.testBit 7 = true then ((r <<< 1) % 256) ^^^ 0x31 else (r <<< 1) % 256 := by
    have c7 : r &&& 0x80 ≠ 0 ↔ r.testBit 7 = true := and_one_shiftLeft_ne_zero r 7
    unfold crc8Bit
    by_cases h : r.testBit 7 = true
    · rw [if_pos (c7.2 h), if_pos h]
      exact xor_mod_two_pow _ _ 8
    · rw [if_neg (fun h2 => h (c7.1 h2)), if_neg h]
  have e8 (x y : Nat) : (x ^^^ y) % 256 = (x % 256) ^^^ (y % 256) := xor_mod_two_pow x y 8
  rw [e, e a, e b, Nat.testBit_xor, shiftLeft_xor, e8]
  exact xor_cond_xor _ _ _ _ _

theorem crc8Bit_iterate_xor (n a b : Nat) :
    crc8Bit^[n] (a ^^^ b) = crc8Bit^[n] a ^^^ crc8Bit^[n] b := by
  induction n generalizing a b with
  | zero => rfl
  | succ n ih => simp only [Function.iterate_succ, Function.comp, crc8Bit_xor, ih]

theorem crc8Message_xor (a b : Nat) : crc8Message (a ^^^ b) = crc8Message a ^^^ crc8Message b := by
  simp only [crc8Message, crc8, List.foldl, crc8Byte, Nat.zero_xor]
  rw [shiftRight_xor, Nat.and_xor_distrib_right, crc8Bit_iterate_xor 8 (a >>> 8) (b >>> 8),
    xor_xor_xor_comm, crc8Bit_iterate_xor]

/-- Two XOR-additive functions that agree on the powers of two below `2^n` agree below `2^n`. -/
theorem xor_additive_ext (f g : Nat → Nat) (hf : ∀ a b, f (a ^^^ b) = f a ^^^ f b)
    (hg : ∀ a b, g (a ^^^ b) = g a ^^^ g b) (n : Nat) (h : ∀ k, k < n → f (2 ^ k) = g (2 ^ k)) :
    ∀ m, m < 2 ^ n → f m = g m := by
  have f0 : f 0 = 0 := by
    have := hf 0 0
    rw [Nat.xor_self] at this
    rw [this, Nat.xor_self]
  have g0 : g 0 = 0 := by
    have := hg 0 0
    rw [Nat.xor_self] at this
    rw [this, Nat.xor_self]
  induction n with
  | zero =>
    intro m hm
    have : m = 0 := by simpa using hm
    rw [this, f0, g0]
  | succ n ih =>
    intro m hm
    have ih := ih (fun k hk => h k (Nat.lt_succ_of_lt hk))
    cases hb : m.testBit n with
    | false => exact ih m (lt_two_pow_of_testBit_false hm hb)
    | true =>
      have hlt : m ^^^ 2 ^ n < 2 ^ n := by
        apply lt_two_pow_of_testBit_false
        · exact Nat.xor_lt_two_pow hm (Nat.pow_lt_pow_right (by decide) (Nat.lt_succ_self n))
        · rw [Nat.testBit_xor, hb, Nat.testBit_two_pow_self]; rfl
      have hm2 : m = (m ^^^ 2 ^ n) ^^^ 2 ^ n := by
        rw [Nat.xor_assoc, Nat.xor_self, Nat.xor_zero]
      rw [hm2, hf, hg, ih _ hlt, h n (Nat.lt_succ_self n)]

theorem check_crc_two_pow (k : Nat) (hk : k < 16) : check_crc (2 ^ k) 0 = crc8Message (2 ^ k) := by
  interval_cases k <;> rfl

/-- With a zero check byte, `check_crc` is the byte-wise CRC-8 of the message. -/
theorem check_crc_eq_crc8 (m : Nat) (hm : m < 65536) : check_crc m 0 = crc8Message m := by
  refine xor_additive_ext (fun m => check_crc m 0) crc8Message ?_ crc8Message_xor 16
    check_crc_two_pow m hm
  intro a b
  have := check_crc_xor a b 0 0
  rwa [Nat.xor_self] at this

/-! ## The wait loop -/

theorem pollsLog_succ_append (l : List BusOp) (n : Nat) :
    l ++ [BusOp.available] ++ [BusOp.delay 1] ++ pollsLog n = l ++ pollsLog (n + 1) := by
  simp [pollsLog]

/-- When every one of the `d` polls left sees fewer than three bytes, the loop gives up after
exactly `d` polls, each followed by a one-millisecond delay. -/
theorem waitLoop_timeout (d : Nat) : ∀ (c : Nat) (w : Bus), c + (d + 1) = 101 →
    (∀ k, k < d + 1 → w.availableAt k < 3) →
    waitLoop c w = (false, { availableAt := fun j => w.availableAt (j + (d + 1)),
                             readAt := w.readAt, log := w.log ++ pollsLog (d + 1) }) := by
  induction d with
  | zero =>
    intro c w hc h
    have h0 := h 0 (by decide)
    rw [waitLoop]
    simp only [Bus.available, Bus.delay, h0, if_true]
    rw [if_pos (by omega)]
    simp [pollsLog]
  | succ d ih =>
    intro c w hc h
    have h0 := h 0 (by omega)
    rw [waitLoop]
    simp only [Bus.available, Bus.delay, h0, if_true]
    rw [if_neg (by omega), ih (c + 1) _ (by omega) (fun k hk => h (k + 1) (by omega))]
    simp only [pollsLog_succ_append, Nat.add_assoc]

/-- When the first poll that sees three bytes is poll number `k` (counted from 0) and the
counter allows it, the loop is left normally after `k` unsuccessful polls and that one. -/
theorem waitLoop_ready (k : Nat) : ∀ (c : Nat) (w : Bus), c + k ≤ 100 →
    (∀ j, j < k → w.availableAt j < 3) → 3 ≤ w.availableAt k →
    waitLoop c w = (true, { availableAt := fun j => w.availableAt (j + (k + 1)),
                            readAt := w.readAt,
                            log := w.log ++ pollsLog k ++ [BusOp.available] }) := by
  induction k with
  | zero =>
    intro c w _ _ h3
    rw [waitLoop]
    simp only [Bus.available]
    rw [if_neg (by omega)]
    simp [pollsLog]
  | succ k ih =>
    intro c w hc h h3
    have h0 := h 0 (by omega)
    rw [waitLoop]
    simp only [Bus.available, Bus.delay, h0, if_true]
    rw [if_neg (by omega), ih (c + 1) _ (by omega) (fun j hj => h (j + 1) (by omega)) h3]
    simp only [pollsLog_succ_append, Nat.add_assoc]

theorem waitLoop_of_arrives (w : Bus) (h : ArrivesInTime w) :
    ∃ w', waitLoop 0 w = (true, w') ∧ w'.readAt = w.readAt := by
  classical
  have hex : ∃ k, 3 ≤ w.availableAt k := by
    obtain ⟨k, _, hk⟩ := h
    exact ⟨k, hk⟩
  have hmin : ∀ j, j < Nat.find hex → w.availableAt j < 3 := fun j hj =>
    not_le.1 (Nat.find_min hex hj)
  have hle : Nat.find hex ≤ 100 := by
    obtain ⟨k, hk, hk3⟩ := h
    exact le_trans (Nat.find_min' hex hk3) hk
  exact ⟨_, waitLoop_ready (Nat.find hex) 0 w (by omega) hmin (Nat.find_spec hex), rfl⟩

theorem waitLoop_of_not_arrives (w : Bus) (h : ¬ ArrivesInTime w) :
    waitLoop 0 w = (false, { availableAt := fun j => w.availableAt (j + 101),
                             readAt := w.readAt, log := w.log ++ pollsLog 101 }) := by
  apply waitLoop_timeout 100 0 w rfl
  intro k hk
  by_contra hk3
  exact h ⟨k, by omega, not_lt.1 hk3⟩

/-! ## The measurement operations, case by case -/

/-- The bus functions called before the wait loop only extend the log. -/
theorem arrives_request (w : Bus) (command : Nat) (h : ArrivesInTime w) :
    ArrivesInTime (((((w.beginTransmission SI7013_ADDRESS).write command).endTransmission).delay
      55).requestFrom SI7013_ADDRESS 3) := h

theorem readHumidity_of_arrives (w : Bus) (h : ArrivesInTime w) :
    (readHumidity w).1 =
      if check_crc (((w.readAt 0 % 256) <<< 8) ||| (w.readAt 1 % 256)) (w.readAt 2 % 256) ≠ 0
      then (999 : ℚ)
      else (-6 : ℚ) + (125 : ℚ) *
        ((((((w.readAt 0 % 256) <<< 8) ||| (w.readAt 1 % 256)) &&& 0xFFFC : ℕ) : ℚ) / 65536) := by
  obtain ⟨w', hw, hr⟩ := waitLoop_of_arrives _ (arrives_request w MEASURE_RH_NOHOLD h)
  replace hr : w'.readAt = w.readAt := hr
  simp only [readHumidity, hw, Bus.read, hr]
  simp only [Bool.true_eq_false, if_false, Nat.zero_add, Nat.reduceAdd, ne_eq]
  split_ifs <;> rfl

theorem readTemperature_of_arrives (w : Bus) (h : ArrivesInTime w) :
    (readTemperature w).1 =
      if check_crc (((w.readAt 0 % 256) <<< 8) ||| (w.readAt 1 % 256)) (w.readAt 2 % 256) ≠ 0
      then (999 : ℚ)
      else (-46.85 : ℚ) + (175.72 : ℚ) *
        ((((((w.readAt 0 % 256) <<< 8) ||| (w.readAt 1 % 256)) &&& 0xFFFC : ℕ) : ℚ) / 65536) := by
  obtain ⟨w', hw, hr⟩ := waitLoop_of_arrives _ (arrives_request w MEASURE_TEMP_NOHOLD h)
  replace hr : w'.readAt = w.readAt := hr
  simp only [readTemperature, hw, Bus.read, hr]
  simp only [Bool.true_eq_false, if_false, Nat.zero_add, Nat.reduceAdd, ne_eq]
  split_ifs <;> rfl

theorem readHumidity_of_not_arrives (w : Bus) (h : ¬ ArrivesInTime w) :
    readHumidity w = (998, { availableAt := fun j => w.availableAt (j + 101),
                             readAt := w.readAt,
                             log := w.log ++ requestLog MEASURE_RH_NOHOLD ++ pollsLog 101 }) := by
  have hw := waitLoop_of_not_arrives _ (fun h' => h (show ArrivesInTime w from
    (h' : ArrivesInTime (((((w.beginTransmission SI7013_ADDRESS).write
      MEASURE_RH_NOHOLD).endTransmission).delay 55).requestFrom SI7013_ADDRESS 3))))
  simp only [readHumidity, hw, if_true]
  simp [Bus.beginTransmission, Bus.write, Bus.endTransmission, Bus.delay, Bus.requestFrom,
    requestLog]

theorem readTemperature_of_not_arrives (w : Bus) (h : ¬ ArrivesInTime w) :
    readTemperature w = (998, { availableAt := fun j => w.availableAt (j + 101),
                                readAt := w.readAt,
                                log := w.log ++ requestLog MEASURE_TEMP_NOHOLD ++ pollsLog 101 }) := by
  have hw := waitLoop_of_not_arrives _ (fun h' => h (show ArrivesInTime w from
    (h' : ArrivesInTime (((((w.beginTransmission SI7013_ADDRESS).write
      MEASURE_TEMP_NOHOLD).endTransmission).delay 55).requestFrom SI7013_ADDRESS 3))))
  simp only [readTemperature, hw, if_true]
  simp [Bus.beginTransmission, Bus.write, Bus.endTransmission, Bus.delay, Bus.requestFrom,
    requestLog]

/-- The masked raw value, as a rational, stays in the 16-bit range. -/
theorem masked_bounds (raw : Nat) (h : raw < 65536) :
    (0 : ℚ) ≤ ((raw &&& 0xFFFC : ℕ) : ℚ) ∧ ((raw &&& 0xFFFC : ℕ) : ℚ) < 65536 := by
  constructor
  · exact Nat.cast_nonneg _
  · have : raw &&& 0xFFFC < 65536 := lt_of_le_of_lt Nat.and_le_left h
    exact_mod_cast this

theorem humidity_bounds (raw : Nat) (h : raw < 65536) :
    (-47 : ℚ) < (-6 : ℚ) + (125 : ℚ) * (((raw &&& 0xFFFC : ℕ) : ℚ) / 65536) ∧
    (-6 : ℚ) + (125 : ℚ) * (((raw &&& 0xFFFC : ℕ) : ℚ) / 65536) < (135 : ℚ) := by
  obtain ⟨h0, h1⟩ := masked_bounds raw h
  constructor <;> linarith

theorem temperature_bounds (raw : Nat) (h : raw < 65536) :
    (-47 : ℚ) < (-46.85 : ℚ) + (175.72 : ℚ) * (((raw &&& 0xFFFC : ℕ) : ℚ) / 65536) ∧
    (-46.85 : ℚ) + (175.72 : ℚ) * (((raw &&& 0xFFFC : ℕ) : ℚ) / 65536) < (135 : ℚ) := by
  obtain ⟨h0, h1⟩ := masked_bounds raw h
  constructor <;> norm_num <;> linarith

theorem raw_lt (msb lsb : Nat) (h1 : msb < 256) (h2 : lsb < 256) :
    (msb <<< 8) ||| lsb < 65536 := by
  rw [shiftLeft_or_eq_xor _ _ h2]
  apply Nat.xor_lt_two_pow (n := 16)
  · rw [Nat.shiftLeft_eq]; omega
  · omega

/-! ## Properties of `check_crc` -/

/-- C1: `check_crc` returns exactly 0 on the three triplets the datasheet documents:
message 0x683A with check value 0x7C, message 0x4E85 with check value 0x6B, and message 0xDC
(passed as the 16-bit value 0x00DC) with check value 0x79. -/
theorem check_crc_datasheet_triplets :
    check_crc 0x683A 0x7C = 0 ∧ check_crc 0x4E85 0x6B = 0 ∧ check_crc 0x00DC 0x79 = 0 := by
  decide

/-- C10: `check_crc` is linear over GF(2): on 16-bit messages and check bytes, the result for the
XOR of two inputs is the XOR of the two results, and the zero input gives zero. -/
theorem check_crc_linear :
    (∀ m1 m2 c1 c2 : Nat, m1 < 65536 → m2 < 65536 → c1 < 256 → c2 < 256 →
      check_crc (m1 ^^^ m2) (c1 ^^^ c2) = check_crc m1 c1 ^^^ check_crc m2 c2) ∧
    check_crc 0 0 = 0 :=
  ⟨fun m1 m2 c1 c2 _ _ _ _ => check_crc_xor m1 m2 c1 c2, by decide⟩

theorem check_crc_linear_witness :
    check_crc (0x683A ^^^ 0x4E85) (0x7C ^^^ 0x6B) = check_crc 0x683A 0x7C ^^^ check_crc 0x4E85 0x6B :=
  check_crc_linear.1 0x683A 0x4E85 0x7C 0x6B (by decide) (by decide) (by decide) (by decide)

/-- C9: for every 16-bit message `m` and check byte `c`, `check_crc m c` is `check_crc m 0` XOR
`c`; hence `check_crc m 0` is a byte and is the one and only check byte for which `check_crc`
returns 0 on `m`. -/
theorem check_crc_check_byte (m c : Nat) (hm : m < 65536) (hc : c < 256) :
    check_crc m c = check_crc m 0 ^^^ c ∧
    check_crc m 0 < 256 ∧
    (check_crc m c = 0 ↔ c = check_crc m 0) := by
  have _ := hm
  refine ⟨check_crc_split m c hc, check_crc_lt m 0, ?_⟩
  rw [check_crc_split m c hc, Nat.xor_eq_zero]
  exact eq_comm

theorem check_crc_check_byte_witness :
    check_crc 0x683A 0x7C = check_crc 0x683A 0 ^^^ 0x7C ∧
    check_crc 0x683A 0 < 256 ∧
    (check_crc 0x683A 0x7C = 0 ↔ 0x7C = check_crc 0x683A 0) :=
  check_crc_check_byte 0x683A 0x7C (by decide) (by decide)

theorem check_crc_single_bit (k : Nat) (hk : k < 16) : check_crc (1 <<< k) 0 ≠ 0 := by
  interval_cases k <;> decide

/-- C5: for every valid triplet (16-bit message `m`, check byte `c`, `check_crc m c = 0`),
flipping any one of the 16 message bits or any one of the 8 check bits gives a triplet on which
`check_crc` returns a non-zero remainder. -/
theorem check_crc_detects_single_bit_flip (m c : Nat) (hm : m < 65536) (hc : c < 256)
    (hv : check_crc m c = 0) :
    (∀ k, k < 16 → check_crc (m ^^^ (1 <<< k)) c ≠ 0) ∧
    (∀ k, k < 8 → check_crc m (c ^^^ (1 <<< k)) ≠ 0) := by
  have _ := hm
  have _ := hc
  constructor
  · intro k hk
    have h := check_crc_xor m (1 <<< k) c 0
    rw [Nat.xor_zero, hv, Nat.zero_xor] at h
    rw [h]
    exact check_crc_single_bit k hk
  · intro k hk
    have h := check_crc_xor m 0 c (1 <<< k)
    have hlt : 1 <<< k < 256 := by interval_cases k <;> decide
    rw [Nat.xor_zero, hv, Nat.zero_xor, check_crc_zero_left _ hlt] at h
    rw [h, Nat.one_shiftLeft]
    exact Nat.pos_iff_ne_zero.1 (Nat.pow_pos (by decide))

theorem check_crc_detects_single_bit_flip_witness :
    (∀ k, k < 16 → check_crc (0x683A ^^^ (1 <<< k)) 0x7C ≠ 0) ∧
    (∀ k, k < 8 → check_crc 0x683A (0x7C ^^^ (1 <<< k)) ≠ 0) :=
  check_crc_detects_single_bit_flip 0x683A 0x7C (by decide) (by decide) (by decide)

/-- C8: for every 16-bit message `m` and check byte `c`, `check_crc m c` is the remainder of the
GF(2) polynomial `m·x^8 + c` (the padded register `(m <<< 8) ||| c`, in which the OR is an XOR)
divided by `x^8 + x^5 + x^4 + 1` (0x131): it satisfies the division equation with a degree below 8, and nothing else does.
Equivalently it is the MSB-first, non-reflected CRC-8 with polynomial 0x31 and initial value 0
of the two message bytes, XORed with `c`. -/
theorem check_crc_is_polynomial_remainder (m c : Nat) (hm : m < 65536) (hc : c < 256) :
    (m <<< 8) ^^^ c = (m <<< 8) ||| c ∧
    IsGF2Remainder ((m <<< 8) ^^^ c) 0x131 (check_crc m c) ∧
    (∀ r, IsGF2Remainder ((m <<< 8) ^^^ c) 0x131 r → r = check_crc m c) ∧
    check_crc m c = crc8 [m >>> 8, m &&& 0xFF] ^^^ c := by
  have hlog : Nat.log2 0x131 = 8 := by
    have hne : (0x131 : Nat) ≠ 0 := by decide
    have h1 : Nat.log2 0x131 < 9 := (Nat.log2_lt hne).2 (by decide)
    have h2 : 8 ≤ Nat.log2 0x131 := (Nat.le_log2 hne).2 (by decide)
    omega
  have hreg : ((m % 65536) <<< 8) ^^^ (c % 256) = (m <<< 8) ^^^ c := by
    rw [Nat.mod_eq_of_lt hm, Nat.mod_eq_of_lt hc]
  have hq : ∃ q, gf2mul q 0x131 ^^^ check_crc m c = (m <<< 8) ^^^ c := by
    rw [check_crc_eq_loop, hreg]
    exact crcIter_quotient 16 _ (Nat.le_refl _)
  refine ⟨(shiftLeft_or_eq_xor m c hc).symm, ⟨?_, hq⟩, ?_, ?_⟩
  · rw [hlog]; exact check_crc_lt m c
  · rintro r ⟨hr, q', hq'⟩
    rw [hlog] at hr
    obtain ⟨q, hq⟩ := hq
    exact gf2_remainder_unique 0x131 8 _ q' q r _ (by decide) (by decide) hr
      (check_crc_lt m c) hq' hq
  · rw [check_crc_split m c hc, check_crc_eq_crc8 m hm]
    rfl

theorem check_crc_is_polynomial_remainder_witness :
    (0x683A <<< 8) ^^^ 0x7C = (0x683A <<< 8) ||| 0x7C ∧
    IsGF2Remainder ((0x683A <<< 8) ^^^ 0x7C) 0x131 (check_crc 0x683A 0x7C) ∧
    (∀ r, IsGF2Remainder ((0x683A <<< 8) ^^^ 0x7C) 0x131 r → r = check_crc 0x683A 0x7C) ∧
    check_crc 0x683A 0x7C = crc8 [0x683A >>> 8, 0x683A &&& 0xFF] ^^^ 0x7C :=
  check_crc_is_polynomial_remainder 0x683A 0x7C (by decide) (by decide)

/-! ## Properties of the measurement operations -/

theorem readyBus_arrives (msb lsb checksum : Nat) : ArrivesInTime (readyBus msb lsb checksum) :=
  ⟨0, Nat.zero_le _, le_refl _⟩

/-- C2: when the three bytes `msb`, `lsb`, `checksum` arrive in time and pass the CRC, then with
`raw = (msb <<< 8) ||| lsb` the humidity returned is `-6 + 125 * ((raw &&& 0xFFFC) / 65536)` and
the temperature returned is `-46.85 + 175.72 * ((raw &&& 0xFFFC) / 65536)`, in exact rational
arithmetic. -/
theorem read_converts_valid_triplet (w : Bus) (msb lsb checksum : Nat)
    (hin : ArrivesInTime w)
    (h0 : w.readAt 0 = msb) (h1 : w.readAt 1 = lsb) (h2 : w.readAt 2 = checksum)
    (hm : msb < 256) (hl : lsb < 256) (hc : checksum < 256)
    (hcrc : check_crc ((msb <<< 8) ||| lsb) checksum = 0) :
    (readHumidity w).1
      = (-6 : ℚ) + (125 : ℚ) * (((((msb <<< 8) ||| lsb) &&& 0xFFFC : ℕ) : ℚ) / 65536) ∧
    (readTemperature w).1
      = (-46.85 : ℚ) + (175.72 : ℚ) * (((((msb <<< 8) ||| lsb) &&& 0xFFFC : ℕ) : ℚ) / 65536) := by
  rw [readHumidity_of_arrives w hin, readTemperature_of_arrives w hin, h0, h1, h2,
    Nat.mod_eq_of_lt hm, Nat.mod_eq_of_lt hl, Nat.mod_eq_of_lt hc]
  simp [hcrc]

theorem read_converts_valid_triplet_witness :
    (readTemperature (readyBus 0x68 0x3A 0x7C)).1
      = (-46.85 : ℚ) + (175.72 : ℚ) * ((0x6838 : ℚ) / 65536) ∧
    (readHumidity (readyBus 0x4E 0x85 0x6B)).1
      = (-6 : ℚ) + (125 : ℚ) * ((0x4E84 : ℚ) / 65536) := by
  have a := (read_converts_valid_triplet (readyBus 0x68 0x3A 0x7C) 0x68 0x3A 0x7C
    (readyBus_arrives _ _ _) rfl rfl rfl (by decide) (by decide) (by decide) (by decide)).2
  have b := (read_converts_valid_triplet (readyBus 0x4E 0x85 0x6B) 0x4E 0x85 0x6B
    (readyBus_arrives _ _ _) rfl rfl rfl (by decide) (by decide) (by decide) (by decide)).1
  have ea : ((0x68 <<< 8) ||| 0x3A) &&& 0xFFFC = 0x6838 := by decide
  have eb : ((0x4E <<< 8) ||| 0x85) &&& 0xFFFC = 0x4E84 := by decide
  rw [ea] at a
  rw [eb] at b
  exact ⟨by rw [a]; norm_num, by rw [b]; norm_num⟩

/-- C3: when the three bytes arrive in time, `readHumidity` and `readTemperature` return the
CRC-error sentinel 999 if and only if `check_crc` is non-zero on the raw value as received,
`(msb <<< 8) ||| lsb`, unmasked, and the check byte.  For instance 0x683A passes with 0x7C while
its masked value 0x6838 would not. -/
theorem crc_sentinel_iff_mismatch :
    (∀ (w : Bus) (msb lsb checksum : Nat), ArrivesInTime w →
      w.readAt 0 = msb → w.readAt 1 = lsb → w.readAt 2 = checksum →
      msb < 256 → lsb < 256 → checksum < 256 →
      ((readHumidity w).1 = 999 ↔ check_crc ((msb <<< 8) ||| lsb) checksum ≠ 0) ∧
      ((readTemperature w).1 = 999 ↔ check_crc ((msb <<< 8) ||| lsb) checksum ≠ 0)) ∧
    check_crc 0x683A 0x7C = 0 ∧ check_crc 0x6838 0x7C ≠ 0 := by
  refine ⟨?_, by decide, by decide⟩
  intro w msb lsb checksum hin h0 h1 h2 hm hl hc
  have hraw := raw_lt msb lsb hm hl
  have hh := (humidity_bounds _ hraw).2
  have ht := (temperature_bounds _ hraw).2
  rw [readHumidity_of_arrives w hin, readTemperature_of_arrives w hin, h0, h1, h2,
    Nat.mod_eq_of_lt hm, Nat.mod_eq_of_lt hl, Nat.mod_eq_of_lt hc]
  constructor
  · constructor
    · intro h hz
      rw [if_neg (not_not.2 hz)] at h
      rw [h] at hh
      norm_num at hh
    · intro h
      rw [if_pos h]
  · constructor
    · intro h hz
      rw [if_neg (not_not.2 hz)] at h
      rw [h] at ht
      norm_num at ht
    · intro h
      rw [if_pos h]

theorem crc_sentinel_iff_mismatch_witness :
    (readHumidity (readyBus 0x68 0x3A 0x7C)).1 ≠ 999 ∧
    (readTemperature (readyBus 0x68 0x3A 0x7C)).1 ≠ 999 ∧
    (readHumidity (readyBus 0x68 0x3A 0x7D)).1 = 999 ∧
    (readTemperature (readyBus 0x68 0x3A 0x7D)).1 = 999 := by
  have good := crc_sentinel_iff_mismatch.1 (readyBus 0x68 0x3A 0x7C) 0x68 0x3A 0x7C
    (readyBus_arrives _ _ _) rfl rfl rfl (by decide) (by decide) (by decide)
  have bad := crc_sentinel_iff_mismatch.1 (readyBus 0x68 0x3A 0x7D) 0x68 0x3A 0x7D
    (readyBus_arrives _ _ _) rfl rfl rfl (by decide) (by decide) (by decide)
  exact ⟨fun h => good.1.1 h (by decide), fun h => good.2.1 h (by decide),
    bad.1.2 (by decide), bad.2.2 (by decide)⟩

theorem pollsLog_eq_replicate (n : Nat) :
    pollsLog n = (List.replicate n [BusOp.available, BusOp.delay 1]).flatten := by
  induction n with
  | zero => rfl
  | succ n ih => simp [pollsLog, List.replicate_succ, ih]

theorem not_arrives_of_never (w : Bus) (h : ∀ k, w.availableAt k < 3) : ¬ ArrivesInTime w := by
  rintro ⟨k, _, hk⟩
  exact absurd (h k) (not_lt.2 hk)

theorem silentBus_never (k : Nat) : silentBus.availableAt k < 3 := by
  show (0 : Int) < 3
  decide

theorem count_available_pollsLog (n : Nat) : (pollsLog n).count BusOp.available = n := by
  induction n with
  | zero => rfl
  | succ n ih => simp [pollsLog, ih]

theorem count_available_timeout_log (command : Nat) :
    (([] : List BusOp) ++ requestLog command ++ pollsLog 101).count BusOp.available = 101 := by
  rw [List.count_append, count_available_pollsLog]
  simp [requestLog]

/-- C4, as the claim has it, fails: on a bus that never reports three bytes the operations poll
`Wire.available()` 101 times, not 100, before they return. -/
theorem timeout_polls_not_100 :
    (readHumidity silentBus).1 = 998 ∧
    (readHumidity silentBus).2.log.count BusOp.available = 101 ∧
    (readHumidity silentBus).2.log.count BusOp.available ≠ 100 ∧
    (readTemperature silentBus).1 = 998 ∧
    (readTemperature silentBus).2.log.count BusOp.available = 101 ∧
    (readTemperature silentBus).2.log.count BusOp.available ≠ 100 := by
  have hs := not_arrives_of_never silentBus silentBus_never
  have hh : (readHumidity silentBus).2.log.count BusOp.available = 101 := by
    rw [readHumidity_of_not_arrives silentBus hs]
    exact count_available_timeout_log _
  have ht : (readTemperature silentBus).2.log.count BusOp.available = 101 := by
    rw [readTemperature_of_not_arrives silentBus hs]
    exact count_available_timeout_log _
  refine ⟨?_, hh, by rw [hh]; decide, ?_, ht, by rw [ht]; decide⟩
  · rw [readHumidity_of_not_arrives silentBus hs]
  · rw [readTemperature_of_not_arrives silentBus hs]

/-- C4, amended: if the bus never reports 3 bytes available, `readHumidity` and
`readTemperature` return the bus-timeout sentinel 998 after exactly 101 availability polls,
each followed by a 1 ms delay, and no more: the calls they add to the log are the request
followed by 101 times the pair `available`, `delay 1`, none of them a read, and the stream of
bytes to read is left untouched, whatever it holds. -/
theorem timeout_after_101_polls (w : Bus) (h : ∀ k, w.availableAt k < 3) :
    (readHumidity w).1 = 998 ∧
    (readHumidity w).2.log = w.log ++ requestLog MEASURE_RH_NOHOLD
      ++ (List.replicate 101 [BusOp.available, BusOp.delay 1]).flatten ∧
    (readHumidity w).2.readAt = w.readAt ∧
    (readTemperature w).1 = 998 ∧
    (readTemperature w).2.log = w.log ++ requestLog MEASURE_TEMP_NOHOLD
      ++ (List.replicate 101 [BusOp.available, BusOp.delay 1]).flatten ∧
    (readTemperature w).2.readAt = w.readAt ∧
    BusOp.read ∉ requestLog MEASURE_RH_NOHOLD ∧ BusOp.read ∉ requestLog MEASURE_TEMP_NOHOLD ∧
    BusOp.available ∉ requestLog MEASURE_RH_NOHOLD ∧
    BusOp.available ∉ requestLog MEASURE_TEMP_NOHOLD := by
  have hn := not_arrives_of_never w h
  rw [readHumidity_of_not_arrives w hn, readTemperature_of_not_arrives w hn,
    ← pollsLog_eq_replicate]
  simp [requestLog]

theorem timeout_after_101_polls_witness :
    (readHumidity silentBus).1 = 998 ∧
    (readHumidity silentBus).2.log = silentBus.log ++ requestLog MEASURE_RH_NOHOLD
      ++ (List.replicate 101 [BusOp.available, BusOp.delay 1]).flatten ∧
    (readHumidity silentBus).2.readAt = silentBus.readAt ∧
    (readTemperature silentBus).1 = 998 ∧
    (readTemperature silentBus).2.log = silentBus.log ++ requestLog MEASURE_TEMP_NOHOLD
      ++ (List.replicate 101 [BusOp.available, BusOp.delay 1]).flatten ∧
    (readTemperature silentBus).2.readAt = silentBus.readAt ∧
    BusOp.read ∉ requestLog MEASURE_RH_NOHOLD ∧ BusOp.read ∉ requestLog MEASURE_TEMP_NOHOLD ∧
    BusOp.available ∉ requestLog MEASURE_RH_NOHOLD ∧
    BusOp.available ∉ requestLog MEASURE_TEMP_NOHOLD :=
  timeout_after_101_polls silentBus silentBus_never

/-- C6: the error sentinels never overlap a physical reading.  For every 16-bit raw value the
humidity conversion and the temperature conversion both lie strictly between -47 and 135; so
when `readHumidity` or `readTemperature` returns 998 or 999, either no poll of the wait loop saw
three bytes (a timeout) or the received triplet failed the CRC. -/
theorem sentinels_outside_readings :
    (∀ raw : Nat, raw < 65536 →
      (-47 : ℚ) < (-6 : ℚ) + (125 : ℚ) * (((raw &&& 0xFFFC : ℕ) : ℚ) / 65536) ∧
      (-6 : ℚ) + (125 : ℚ) * (((raw &&& 0xFFFC : ℕ) : ℚ) / 65536) < (135 : ℚ) ∧
      (-47 : ℚ) < (-46.85 : ℚ) + (175.72 : ℚ) * (((raw &&& 0xFFFC : ℕ) : ℚ) / 65536) ∧
      (-46.85 : ℚ) + (175.72 : ℚ) * (((raw &&& 0xFFFC : ℕ) : ℚ) / 65536) < (135 : ℚ)) ∧
    (∀ w : Bus,
      ((readHumidity w).1 = 998 ∨ (readHumidity w).1 = 999 →
        ¬ ArrivesInTime w ∨
        check_crc (((w.readAt 0 % 256) <<< 8) ||| (w.readAt 1 % 256)) (w.readAt 2 % 256) ≠ 0) ∧
      ((readTemperature w).1 = 998 ∨ (readTemperature w).1 = 999 →
        ¬ ArrivesInTime w ∨
        check_crc (((w.readAt 0 % 256) <<< 8) ||| (w.readAt 1 % 256)) (w.readAt 2 % 256) ≠ 0)) := by
  constructor
  · intro raw hraw
    exact ⟨(humidity_bounds raw hraw).1, (humidity_bounds raw hraw).2,
      (temperature_bounds raw hraw).1, (temperature_bounds raw hraw).2⟩
  · intro w
    have hraw := raw_lt (w.readAt 0 % 256) (w.readAt 1 % 256)
      (Nat.mod_lt _ (by decide)) (Nat.mod_lt _ (by decide))
    have hh := (humidity_bounds _ hraw).2
    have ht := (temperature_bounds _ hraw).2
    constructor
    · intro hv
      by_cases hin : ArrivesInTime w
      · right
        intro hz
        rw [readHumidity_of_arrives w hin, if_neg (not_not.2 hz)] at hv
        rcases hv with hv | hv <;> rw [hv] at hh <;> norm_num at hh
      · exact Or.inl hin
    · intro hv
      by_cases hin : ArrivesInTime w
      · right
        intro hz
        rw [readTemperature_of_arrives w hin, if_neg (not_not.2 hz)] at hv
        rcases hv with hv | hv <;> rw [hv] at ht <;> norm_num at ht
      · exact Or.inl hin

theorem sentinels_outside_readings_witness :
    ((-47 : ℚ) < (-6 : ℚ) + (125 : ℚ) * (((0x683A &&& 0xFFFC : ℕ) : ℚ) / 65536) ∧
      (-6 : ℚ) + (125 : ℚ) * (((0x683A &&& 0xFFFC : ℕ) : ℚ) / 65536) < (135 : ℚ) ∧
      (-47 : ℚ) < (-46.85 : ℚ) + (175.72 : ℚ) * (((0x683A &&& 0xFFFC : ℕ) : ℚ) / 65536) ∧
      (-46.85 : ℚ) + (175.72 : ℚ) * (((0x683A &&& 0xFFFC : ℕ) : ℚ) / 65536) < (135 : ℚ)) ∧
    ((readHumidity silentBus).1 = 998 ∧
      (¬ ArrivesInTime silentBus ∨
        check_crc (((silentBus.readAt 0 % 256) <<< 8) ||| (silentBus.readAt 1 % 256))
          (silentBus.readAt 2 % 256) ≠ 0)) := by
  have hv : (readHumidity silentBus).1 = 998 := by
    rw [readHumidity_of_not_arrives silentBus (not_arrives_of_never silentBus silentBus_never)]
  exact ⟨sentinels_outside_readings.1 0x683A (by decide), hv,
    (sentinels_outside_readings.2 silentBus).1 (Or.inl hv)⟩

/-! ## Properties of `setResolution` -/

/-- C7: when the user register read from the device is the byte `r` and the caller passes the
byte `res`, `setResolution` writes back `(r &&& 0x7E) ||| (res &&& 0x81)`: bits 1 to 6 of the
written byte are those of `r`, bits 7 and 0 are those of `res`, whatever the other bits of
`r` and `res` are. -/
theorem setResolution_writes_merged_byte (w : Bus) (r res : Nat)
    (hr0 : w.readAt 0 = r) (hr : r < 256) (hres : res < 256) :
    (setResolution res w).log = w.log ++
      [BusOp.beginTransmission SI7013_ADDRESS, BusOp.write READ_USER_REG1,
        BusOp.endTransmission, BusOp.requestFrom SI7013_ADDRESS 1, BusOp.read,
        BusOp.beginTransmission SI7013_ADDRESS, BusOp.write WRITE_USER_REG1,
        BusOp.write ((r &&& 0x7E) ||| (res &&& 0x81)), BusOp.endTransmission] ∧
    (∀ k, 1 ≤ k → k ≤ 6 → ((r &&& 0x7E) ||| (res &&& 0x81)).testBit k = r.testBit k) ∧
    ((r &&& 0x7E) ||| (res &&& 0x81)).testBit 7 = res.testBit 7 ∧
    ((r &&& 0x7E) ||| (res &&& 0x81)).testBit 0 = res.testBit 0 := by
  refine ⟨?_, ?_, ?_, ?_⟩
  · simp [setResolution, read_user_register, Bus.beginTransmission, Bus.write,
      Bus.endTransmission, Bus.requestFrom, Bus.read, hr0, Nat.mod_eq_of_lt hr,
      Nat.mod_eq_of_lt hres]
  · intro k h1 h6
    have a : Nat.testBit 0x7E k = true := by interval_cases k <;> decide
    have b : Nat.testBit 0x81 k = false := by interval_cases k <;> decide
    simp only [Nat.testBit_or, Nat.testBit_and, a, b, Bool.and_true, Bool.and_false,
      Bool.or_false]
  · have a : Nat.testBit 0x7E 7 = false := by decide
    have b : Nat.testBit 0x81 7 = true := by decide
    simp only [Nat.testBit_or, Nat.testBit_and, a, b, Bool.and_true, Bool.and_false,
      Bool.false_or]
  · have a : Nat.testBit 0x7E 0 = false := by decide
    have b : Nat.testBit 0x81 0 = true := by decide
    simp only [Nat.testBit_or, Nat.testBit_and, a, b, Bool.and_true, Bool.and_false,
      Bool.false_or]

theorem setResolution_writes_merged_byte_witness :
    (setResolution 0x81 (readyBus 0x3A 0 0)).log = (readyBus 0x3A 0 0).log ++
      [BusOp.beginTransmission SI7013_ADDRESS, BusOp.write READ_USER_REG1,
        BusOp.endTransmission, BusOp.requestFrom SI7013_ADDRESS 1, BusOp.read,
        BusOp.beginTransmission SI7013_ADDRESS, BusOp.write WRITE_USER_REG1,
        BusOp.write ((0x3A &&& 0x7E) ||| (0x81 &&& 0x81)), BusOp.endTransmission] ∧
    (∀ k, 1 ≤ k → k ≤ 6 → ((0x3A &&& 0x7E) ||| (0x81 &&& 0x81)).testBit k = (0x3A).testBit k) ∧
    ((0x3A &&& 0x7E) ||| (0x81 &&& 0x81)).testBit 7 = (0x81).testBit 7 ∧
    ((0x3A &&& 0x7E) ||| (0x81 &&& 0x81)).testBit 0 = (0x81).testBit 0 :=
  setResolution_writes_merged_byte (readyBus 0x3A 0 0) 0x3A 0x81 rfl (by decide) (by decide)

end SI7013
